import Mathlib

/-!
Verification of the card-stack repository's CSS shorthand resolver
(`src/DS23.tsx`) and the card-ordering helpers (`src/App.tsx`).

The TypeScript sources are shallowly embedded: JavaScript string
primitives (`split(/\s+/)`, `replace("/", " ")`, `startsWith`, `slice`)
become character-list functions, the resolver becomes a total function
into `Except` (the runtime `TypeError` thrown by destructuring an
`undefined` lookup result is the `error` case), and the two array
helpers become list functions.
-/

namespace CardStack

/-! ## JavaScript string primitives -/

/-- Character-level worker for `String.prototype.split(/\s+/)`: splits at
maximal nonempty runs of whitespace.  `cur` holds the characters of the
current piece in reverse; `inWs` records whether the previous character
was whitespace, so that a run of whitespace produces a single cut.  A
leading run yields a leading `""` piece and a trailing run a trailing
`""` piece, exactly as in JavaScript. -/
def jsSplitWsGo (cs : List Char) (cur : List Char) (inWs : Bool) :
    List (List Char) :=
  match cs with
  | [] => [cur.reverse]
  | c :: rest =>
    if c.isWhitespace then
      if inWs then jsSplitWsGo rest cur true
      else cur.reverse :: jsSplitWsGo rest [] true
    else
      jsSplitWsGo rest (c :: cur) false

/-- Embedding of `s.split(/\s+/)`. -/
def jsSplitWs (s : String) : List String :=
  (jsSplitWsGo s.data [] false).map fun cs => String.mk cs

/-- Character-level worker for `s.replace("/", " ")` (JavaScript `replace`
with a string pattern replaces only the first occurrence). -/
def jsReplaceSlashGo : List Char → List Char
  | [] => []
  | c :: rest => if c = '/' then ' ' :: rest else c :: jsReplaceSlashGo rest

/-- Embedding of `s.replace("/", " ")`. -/
def jsReplaceSlashWithSpace (s : String) : String :=
  String.mk (jsReplaceSlashGo s.data)

/-- Embedding of `s.startsWith(pre)`. -/
def jsStartsWith (s pre : String) : Bool :=
  pre.data.isPrefixOf s.data

/-- Embedding of `s.slice(n)` (drop the first `n` characters; the source
only applies it to ASCII strings, where JavaScript UTF-16 units coincide
with characters). -/
def jsSlice (s : String) (n : Nat) : String :=
  String.mk (s.data.drop n)

/-- A nonempty string with no whitespace: exactly the strings that
`split(/\s+/)` leaves as one single piece. -/
def isTokenNoWs (s : String) : Bool :=
  !s.data.isEmpty && s.data.all fun c => !c.isWhitespace

/-- A nonempty string with neither whitespace nor `'/'`; every value of the
source's `Length` grammar (`"0"`, `"<n>px"`, `"<n>rem"`) and `"auto"`
satisfies this. -/
def isLengthLike (s : String) : Bool :=
  !s.data.isEmpty && s.data.all fun c => !c.isWhitespace && !(c = '/')

/-! ## The CSS shorthand resolver (`cssShorthand`, src/DS23.tsx) -/

/-- The `flex`, `size` and `padding` fields of `CssShorthandProps`
(src/DS23.tsx lines 12–30).  The passthrough fields (`class`, `label`,
`title`, `onClick`, `disabled`) are never inspected by the style
computation and are omitted. -/
structure CssShorthandProps where
  flex : Option String := none
  size : Option String := none
  padding : Option String := none
deriving DecidableEq, Repr

/-- The style declarations produced by the `css` template at
src/DS23.tsx lines 104–118.  A field is `none` when the corresponding
local variable is left `undefined` (the emitted `property: ;` declaration
is dropped by the CSS parser). -/
structure ResolvedStyle where
  display : Option String := none
  flexFlow : Option String := none
  gap : Option String := none
  flexBasis : Option String := none
  flexGrow : Option String := none
  flexShrink : Option String := none
  alignItems : Option String := none
  justifyContent : Option String := none
  boxSizing : Option String := none
  padding : Option String := none
deriving DecidableEq, Repr

/-- The object literal lookup at src/DS23.tsx lines 70–79 mapping a
`"<flow>/<align>"` key to `[flexFlow, alignItems]`. -/
def flowAlignLookup (direction : String) : Option (String × Option String) :=
  if direction = "x/stretch" then some ("row", none)
  else if direction = "y/stretch" then some ("column", none)
  else if direction = "x/center" then some ("row", some "center")
  else if direction = "y/center" then some ("column", some "center")
  else if direction = "x-wrap/stretch" then some ("row wrap", none)
  else if direction = "y-wrap/stretch" then some ("column wrap", none)
  else if direction = "x-wrap/center" then some ("row wrap", some "center")
  else if direction = "y-wrap/center" then some ("column wrap", some "center")
  else none

/-- Values of `flexFlow`, `gap`, `alignItems`, `justifyContent` computed
from a non-null `props.flex`. -/
structure FlexResult where
  flexFlow : Option String
  gap : Option String
  alignItems : Option String
  justifyContent : Option String
deriving DecidableEq, Repr

/-- The `props.flex` branch of `cssShorthand` (src/DS23.tsx lines 54–80).
On a lookup miss the source destructures `undefined`
(`[flexFlow, alignItems] = {...}[direction]!`), which throws a
`TypeError` at runtime; that is the `error` case here. -/
def resolveFlex (flex : String) : Except String FlexResult :=
  if flex = "center" then
    Except.ok ⟨some "column", none, some "center", some "center"⟩
  else if flex = "center-x" then
    Except.ok ⟨some "row", none, some "stretch", some "center"⟩
  else if flex = "center-y" then
    Except.ok ⟨some "column", none, some "stretch", some "center"⟩
  else
    let parts := jsSplitWs flex
    let direction := parts.headD ""
    let gap := parts.get? 1
    match flowAlignLookup direction with
    | some (ff, ai) => Except.ok ⟨some ff, gap, ai, none⟩
    | none => Except.error "TypeError: destructuring undefined lookup result"

/-- Values of `flexShrink`, `flexBasis`, `flexGrow` computed from a
non-null `props.size`. -/
structure SizeResult where
  flexShrink : Option String
  flexBasis : Option String
  flexGrow : Option String
deriving DecidableEq, Repr

/-- The `props.size` branch of `cssShorthand` (src/DS23.tsx lines 84–99).
The numeric literals `0` and `1` of the source are the strings they
interpolate to in the CSS template. -/
def resolveSize (size : String) : SizeResult :=
  if size = "grow" then
    ⟨some "0", some "0", some "1"⟩
  else if jsStartsWith size "grow-" then
    ⟨some "0", some "0", some (jsSlice size 5)⟩
  else
    let parts := jsSplitWs size
    if parts.length = 3 then
      ⟨parts.get? 0, parts.get? 1, parts.get? 2⟩
    else
      ⟨some "0", some size, some "0"⟩

/-- Embedding of `cssShorthand` (src/DS23.tsx lines 40–126), restricted to
the computed style declarations.  `display` is set exactly when
`props.flex != null`; `gap` and `padding` go through
`replace("/", " ")`; `box-sizing: border-box` is always emitted. -/
def cssShorthand (props : CssShorthandProps) : Except String ResolvedStyle :=
  let frE : Except String FlexResult :=
    match props.flex with
    | none => Except.ok ⟨none, none, none, none⟩
    | some flex => resolveFlex flex
  match frE with
  | Except.error e => Except.error e
  | Except.ok fr =>
    let sr : SizeResult :=
      match props.size with
      | none => ⟨none, none, none⟩
      | some size => resolveSize size
    Except.ok
      { display := props.flex.map fun _ => "flex"
        flexFlow := fr.flexFlow
        gap := Option.map jsReplaceSlashWithSpace fr.gap
        flexBasis := sr.flexBasis
        flexGrow := sr.flexGrow
        flexShrink := sr.flexShrink
        alignItems := fr.alignItems
        justifyContent := fr.justifyContent
        boxSizing := some "border-box"
        padding := Option.map jsReplaceSlashWithSpace props.padding }

/-! ## Lemmas about the string primitives -/

theorem isTokenNoWs_nonWs {s : String} (h : isTokenNoWs s = true) :
    ∀ c ∈ s.data, c.isWhitespace = false := by
  simp only [isTokenNoWs, Bool.and_eq_true, List.all_eq_true] at h
  intro c hc
  simpa using h.2 c hc

theorem isLengthLike_nonWs {s : String} (h : isLengthLike s = true) :
    ∀ c ∈ s.data, c.isWhitespace = false := by
  simp only [isLengthLike, Bool.and_eq_true, List.all_eq_true] at h
  intro c hc
  simpa using (h.2 c hc).1

theorem isLengthLike_noSlash {s : String} (h : isLengthLike s = true) :
    ∀ c ∈ s.data, c ≠ '/' := by
  simp only [isLengthLike, Bool.and_eq_true, List.all_eq_true] at h
  intro c hc
  simpa using (h.2 c hc).2

theorem isLengthLike_toTokenNoWs {s : String} (h : isLengthLike s = true) :
    isTokenNoWs s = true := by
  simp only [isLengthLike, Bool.and_eq_true, List.all_eq_true] at h
  simp only [isTokenNoWs, Bool.and_eq_true, List.all_eq_true]
  exact ⟨h.1, fun c hc => (h.2 c hc).1⟩

theorem isTokenNoWs_slash_append {a b : String} (ha : isLengthLike a = true)
    (hb : isLengthLike b = true) : isTokenNoWs (a ++ "/" ++ b) = true := by
  simp only [isTokenNoWs, Bool.and_eq_true, List.all_eq_true, String.data_append,
    List.mem_append, List.isEmpty_eq_true, Bool.not_eq_true']
  constructor
  · simp [List.append_eq_nil]
  · intro c hc
    rcases hc with hc | hc
    · rcases hc with hc | hc
      · simpa using isLengthLike_nonWs ha c hc
      · have : c = '/' := by simpa using hc
        subst this
        decide
    · simpa using isLengthLike_nonWs hb c hc

theorem jsSplitWsGo_all_nonWs (cs : List Char) :
    ∀ (cur : List Char) (b : Bool), (∀ c ∈ cs, c.isWhitespace = false) →
      jsSplitWsGo cs cur b = [cur.reverse ++ cs] := by
  induction cs with
  | nil => intro cur b _; simp [jsSplitWsGo]
  | cons c rest ih =>
    intro cur b h
    have hc : c.isWhitespace = false := h c (List.mem_cons_self c rest)
    have hrest : ∀ x ∈ rest, x.isWhitespace = false :=
      fun x hx => h x (List.mem_cons_of_mem _ hx)
    simp [jsSplitWsGo, hc, ih (c :: cur) false hrest]

theorem jsSplitWsGo_token_space (pre : List Char) :
    ∀ (cur gap : List Char), (∀ c ∈ pre, c.isWhitespace = false) →
      jsSplitWsGo (pre ++ ' ' :: gap) cur false =
        (cur.reverse ++ pre) :: jsSplitWsGo gap [] true := by
  induction pre with
  | nil =>
    intro cur gap _
    simp [jsSplitWsGo]
  | cons c rest ih =>
    intro cur gap h
    have hc : c.isWhitespace = false := h c (List.mem_cons_self c rest)
    have hrest : ∀ x ∈ rest, x.isWhitespace = false :=
      fun x hx => h x (List.mem_cons_of_mem _ hx)
    simp [jsSplitWsGo, hc, ih (c :: cur) gap hrest]

/-- Splitting `"<token> <token>"` on whitespace yields the two tokens. -/
theorem jsSplitWs_token_pair (t g : String) (ht : isTokenNoWs t = true)
    (hg : isTokenNoWs g = true) : jsSplitWs (t ++ " " ++ g) = [t, g] := by
  have hd : (t ++ " " ++ g).data = t.data ++ ' ' :: g.data := by
    simp [String.data_append]
  rw [jsSplitWs, hd, jsSplitWsGo_token_space t.data [] g.data (isTokenNoWs_nonWs ht),
    jsSplitWsGo_all_nonWs g.data [] true (isTokenNoWs_nonWs hg)]
  simp

/-- Splitting a whitespace-free string yields the string itself. -/
theorem jsSplitWs_single (z : String) (hz : isTokenNoWs z = true) :
    jsSplitWs z = [z] := by
  rw [jsSplitWs, jsSplitWsGo_all_nonWs z.data [] false (isTokenNoWs_nonWs hz)]
  simp

theorem jsReplaceSlashGo_no_slash (l : List Char) (h : ∀ c ∈ l, c ≠ '/') :
    jsReplaceSlashGo l = l := by
  induction l with
  | nil => rfl
  | cons c rest ih =>
    have hc : c ≠ '/' := h c (List.mem_cons_self c rest)
    simp [jsReplaceSlashGo, hc, ih fun x hx => h x (List.mem_cons_of_mem _ hx)]

theorem jsReplaceSlashGo_append (a b : List Char) (h : ∀ c ∈ a, c ≠ '/') :
    jsReplaceSlashGo (a ++ '/' :: b) = a ++ ' ' :: b := by
  induction a with
  | nil => simp [jsReplaceSlashGo]
  | cons c rest ih =>
    have hc : c ≠ '/' := h c (List.mem_cons_self c rest)
    simp [jsReplaceSlashGo, hc, ih fun x hx => h x (List.mem_cons_of_mem _ hx)]

/-- `replace("/", " ")` is the identity on slash-free strings. -/
theorem jsReplaceSlash_of_lengthLike {s : String} (h : isLengthLike s = true) :
    jsReplaceSlashWithSpace s = s := by
  rw [jsReplaceSlashWithSpace, jsReplaceSlashGo_no_slash s.data (isLengthLike_noSlash h)]

/-- `replace("/", " ")` turns `"<a>/<b>"` into `"<a> <b>"` when `a` is
slash-free. -/
theorem jsReplaceSlash_pair {a : String} (b : String) (ha : isLengthLike a = true) :
    jsReplaceSlashWithSpace (a ++ "/" ++ b) = a ++ " " ++ b := by
  have hd : (a ++ "/" ++ b).data = a.data ++ '/' :: b.data := by
    simp [String.data_append]
  rw [jsReplaceSlashWithSpace, hd,
    jsReplaceSlashGo_append a.data b.data (isLengthLike_noSlash ha)]
  apply String.ext
  simp [String.data_append]

/-! ## Lemmas about the resolver -/

/-- On `"<flow>/<align> <gap>"` input with a successful table lookup,
`resolveFlex` returns the looked-up flow and alignment and the raw gap
token. -/
theorem resolveFlex_token_gap (fa gap ff : String) (ai : Option String)
    (hfa : isTokenNoWs fa = true) (hgap : isTokenNoWs gap = true)
    (hl : flowAlignLookup fa = some (ff, ai)) :
    resolveFlex (fa ++ " " ++ gap) = Except.ok ⟨some ff, some gap, ai, none⟩ := by
  have hsp : ' ' ∈ (fa ++ " " ++ gap).data := by
    simp [String.data_append]
  have hne : ∀ t : String, ' ' ∉ t.data → fa ++ " " ++ gap ≠ t :=
    fun t ht h => ht (h ▸ hsp)
  rw [resolveFlex, if_neg (hne "center" (by decide)),
    if_neg (hne "center-x" (by decide)), if_neg (hne "center-y" (by decide))]
  simp [jsSplitWs_token_pair fa gap hfa hgap, hl]

/-- A successful call copies the `size`-derived values into the final
style record. -/
theorem cssShorthand_sizeResult_fields (props : CssShorthandProps) (z : String)
    (s : ResolvedStyle) (hz : props.size = some z)
    (hok : cssShorthand props = Except.ok s) :
    s.flexShrink = (resolveSize z).flexShrink ∧
      s.flexBasis = (resolveSize z).flexBasis ∧
      s.flexGrow = (resolveSize z).flexGrow := by
  cases hf : props.flex with
  | none =>
    simp [cssShorthand, hf, hz] at hok
    rw [← hok]
    exact ⟨rfl, rfl, rfl⟩
  | some f =>
    cases hr : resolveFlex f with
    | error e => simp [cssShorthand, hf, hr] at hok
    | ok fr =>
      simp [cssShorthand, hf, hr, hz] at hok
      rw [← hok]
      exact ⟨rfl, rfl, rfl⟩

/-- A successful call with non-null `flex` copies the `flex`-derived
values into the final style record and sets `display`. -/
theorem cssShorthand_flexResult_fields (props : CssShorthandProps) (f : String)
    (fr : FlexResult) (s : ResolvedStyle) (hf : props.flex = some f)
    (hr : resolveFlex f = Except.ok fr)
    (hok : cssShorthand props = Except.ok s) :
    s.display = some "flex" ∧ s.flexFlow = fr.flexFlow ∧
      s.gap = Option.map jsReplaceSlashWithSpace fr.gap ∧
      s.alignItems = fr.alignItems ∧ s.justifyContent = fr.justifyContent := by
  simp [cssShorthand, hf, hr] at hok
  rw [← hok]
  simp

theorem jsStartsWith_grow_dash (s : String) :
    jsStartsWith ("grow-" ++ s) "grow-" = true := by
  simp only [jsStartsWith, String.data_append, List.isPrefixOf_iff_prefix]
  exact List.prefix_append _ _

theorem jsSlice_grow_dash (s : String) : jsSlice ("grow-" ++ s) 5 = s := by
  rw [jsSlice, String.data_append,
    show (5 : Nat) = ("grow-".data).length from rfl, List.drop_left]

theorem grow_dash_ne_grow (s : String) : "grow-" ++ s ≠ "grow" := by
  intro h
  have := congrArg (fun t => t.data.length) h
  simp [String.data_append] at this

/-- The `"grow-N"` branch of `resolveSize` copies the suffix after
`"grow-"` into `flex-grow`. -/
theorem resolveSize_grow_dash (s : String) :
    resolveSize ("grow-" ++ s) = ⟨some "0", some "0", some s⟩ := by
  simp [resolveSize, grow_dash_ne_grow s, jsStartsWith_grow_dash s,
    jsSlice_grow_dash s]

/-- The single-token branch of `resolveSize`. -/
theorem resolveSize_single_token (z : String) (h1 : z ≠ "grow")
    (h2 : jsStartsWith z "grow-" = false) (h3 : isTokenNoWs z = true) :
    resolveSize z = ⟨some "0", some z, some "0"⟩ := by
  simp [resolveSize, h1, h2, jsSplitWs_single z h3]

/-! ## The claims -/

/-- C1: for every descriptor whose `flex` value is not one of the three
center forms and whose leading `<flow>/<align>` token is not one of the 8
precomputed combinations, `cssShorthand` raises an error (the
destructuring of the `undefined` lookup result throws) rather than
returning a partially-filled style. -/
theorem cssShorthand_unknown_flow_align_errors (props : CssShorthandProps)
    (f : String) (hf : props.flex = some f) (h1 : f ≠ "center")
    (h2 : f ≠ "center-x") (h3 : f ≠ "center-y")
    (h4 : flowAlignLookup ((jsSplitWs f).headD "") = none) :
    ∃ e, cssShorthand props = Except.error e := by
  refine ⟨"TypeError: destructuring undefined lookup result", ?_⟩
  have hrf : resolveFlex f =
      Except.error "TypeError: destructuring undefined lookup result" := by
    rw [List.headD_eq_head?_getD] at h4
    rw [resolveFlex, if_neg h1, if_neg h2, if_neg h3]
    simp [h4]
  simp [cssShorthand, hf, hrf]

/-- Witness for C1 at the spec's example `flex = "z/stretch 1px"`. -/
theorem cssShorthand_unknown_flow_align_errors_witness :
    ∃ e, cssShorthand { flex := some "z/stretch 1px" } = Except.error e :=
  cssShorthand_unknown_flow_align_errors _ "z/stretch 1px" rfl (by decide)
    (by decide) (by decide) (by decide)

/-- C2 (code bug): the declared size form `"<shrink> <basis> | <grow>"`
(src/DS23.tsx line 25) splits into four whitespace-delimited tokens, so
the three-token branch (lines 92–94) never fires for it; the value falls
through to the single-token branch and the whole string becomes
`flex-basis`, with `flex-grow` and `flex-shrink` set to `0`. -/
theorem cssShorthand_pipe_size_form_eval :
    cssShorthand { size := some "1 auto | 2" } =
      Except.ok { flexShrink := some "0", flexBasis := some "1 auto | 2",
                  flexGrow := some "0", boxSizing := some "border-box" } := rfl

/-- C3: for every descriptor with a non-null `flex` value, the resolved
style includes `display: flex`. -/
theorem cssShorthand_display_flex (props : CssShorthandProps)
    (s : ResolvedStyle) (hflex : props.flex.isSome = true)
    (hok : cssShorthand props = Except.ok s) : s.display = some "flex" := by
  cases hf : props.flex with
  | none => rw [hf] at hflex; simp at hflex
  | some f =>
    cases hr : resolveFlex f with
    | error e => simp [cssShorthand, hf, hr] at hok
    | ok fr => exact (cssShorthand_flexResult_fields props f fr s hf hr hok).1

/-- Witness for C3 at `flex = "center"`. -/
theorem cssShorthand_display_flex_witness :
    ∃ s, cssShorthand { flex := some "center" } = Except.ok s ∧
      s.display = some "flex" := by
  refine ⟨_, rfl, ?_⟩
  exact cssShorthand_display_flex { flex := some "center" } _ rfl rfl

/-- C4: a `flex` value `"<flow>/<align> <gap>"` or
`"<flow>/<align> <gap>/<gap>"` maps flow `x`, `y`, `x-wrap`, `y-wrap` to
flex-flow `row`, `column`, `row wrap`, `column wrap`; align `"center"`
sets `align-items: center` while `"stretch"` leaves it unset; the gap is
emitted with the slash between two lengths replaced by a space. -/
theorem cssShorthand_flow_align_gap (props : CssShorthandProps)
    (flow align ff gap gapOut : String) (ai : Option String)
    (hflow : flow = "x" ∧ ff = "row" ∨ flow = "y" ∧ ff = "column" ∨
      flow = "x-wrap" ∧ ff = "row wrap" ∨ flow = "y-wrap" ∧ ff = "column wrap")
    (halign : align = "stretch" ∧ ai = none ∨
      align = "center" ∧ ai = some "center")
    (hgap : isLengthLike gap = true ∧ gapOut = gap ∨
      ∃ g1 g2, isLengthLike g1 = true ∧ isLengthLike g2 = true ∧
        gap = g1 ++ "/" ++ g2 ∧ gapOut = g1 ++ " " ++ g2)
    (hflex : props.flex = some (flow ++ "/" ++ align ++ " " ++ gap)) :
    ∃ s, cssShorthand props = Except.ok s ∧ s.display = some "flex" ∧
      s.flexFlow = some ff ∧ s.alignItems = ai ∧ s.justifyContent = none ∧
      s.gap = some gapOut := by
  have hgtok : isTokenNoWs gap = true := by
    rcases hgap with ⟨hg, _⟩ | ⟨g1, g2, hg1, hg2, hge, _⟩
    · exact isLengthLike_toTokenNoWs hg
    · rw [hge]; exact isTokenNoWs_slash_append hg1 hg2
  have hrepl : jsReplaceSlashWithSpace gap = gapOut := by
    rcases hgap with ⟨hg, hout⟩ | ⟨g1, g2, hg1, hg2, hge, hout⟩
    · rw [hout]; exact jsReplaceSlash_of_lengthLike hg
    · rw [hge, hout]; exact jsReplaceSlash_pair g2 hg1
  have hfa : isTokenNoWs (flow ++ "/" ++ align) = true ∧
      flowAlignLookup (flow ++ "/" ++ align) = some (ff, ai) := by
    rcases hflow with ⟨hfl, hf⟩ | ⟨hfl, hf⟩ | ⟨hfl, hf⟩ | ⟨hfl, hf⟩ <;>
      rcases halign with ⟨hal, ha⟩ | ⟨hal, ha⟩ <;>
        subst hfl <;> subst hf <;> subst hal <;> subst ha <;>
          exact ⟨by decide, by decide⟩
  have hres := resolveFlex_token_gap (flow ++ "/" ++ align) gap ff ai hfa.1
    hgtok hfa.2
  obtain ⟨sr, hsr⟩ : ∃ sr, (match props.size with
      | none => (⟨none, none, none⟩ : SizeResult)
      | some size => resolveSize size) = sr := ⟨_, rfl⟩
  refine ⟨{ display := some "flex", flexFlow := some ff, gap := some gapOut,
            flexBasis := sr.flexBasis, flexGrow := sr.flexGrow,
            flexShrink := sr.flexShrink, alignItems := ai,
            justifyContent := none, boxSizing := some "border-box",
            padding := Option.map jsReplaceSlashWithSpace props.padding },
    ?_, rfl, rfl, rfl, rfl, rfl⟩
  simp [cssShorthand, hflex, hres, hsr, hrepl]

/-- Witness for C4 at the spec's example `flex = "y-wrap/center 4px/8px"`. -/
theorem cssShorthand_flow_align_gap_witness :
    ∃ s, cssShorthand { flex := some "y-wrap/center 4px/8px" } =
        Except.ok s ∧ s.display = some "flex" ∧
      s.flexFlow = some "column wrap" ∧ s.alignItems = some "center" ∧
      s.justifyContent = none ∧ s.gap = some "4px 8px" :=
  cssShorthand_flow_align_gap _ "y-wrap" "center" "column wrap" "4px/8px"
    "4px 8px" (some "center") (Or.inr (Or.inr (Or.inr ⟨rfl, rfl⟩)))
    (Or.inr ⟨rfl, rfl⟩)
    (Or.inr ⟨"4px", "8px", by decide, by decide, rfl, rfl⟩) rfl

/-- C5: `size = "grow"` sets `flex-shrink: 0; flex-basis: 0; flex-grow: 1`,
and `size = "grow-N"` (N a positive integer literal) sets the same except
`flex-grow: N`. -/
theorem cssShorthand_size_grow :
    (∀ (props : CssShorthandProps) (s : ResolvedStyle),
        props.size = some "grow" → cssShorthand props = Except.ok s →
        s.flexShrink = some "0" ∧ s.flexBasis = some "0" ∧
          s.flexGrow = some "1") ∧
    (∀ (n : Nat) (props : CssShorthandProps) (s : ResolvedStyle), 0 < n →
        props.size = some ("grow-" ++ toString n) →
        cssShorthand props = Except.ok s →
        s.flexShrink = some "0" ∧ s.flexBasis = some "0" ∧
          s.flexGrow = some (toString n)) := by
  constructor
  · intro props s hz hok
    have h := cssShorthand_sizeResult_fields props "grow" s hz hok
    simpa [resolveSize] using h
  · intro n props s _ hz hok
    have h := cssShorthand_sizeResult_fields props ("grow-" ++ toString n) s
      hz hok
    rw [resolveSize_grow_dash (toString n)] at h
    exact h

/-- Witness for C5 at `size = "grow"` and the spec's example
`size = "grow-3"`. -/
theorem cssShorthand_size_grow_witness :
    (∃ s, cssShorthand { size := some "grow" } = Except.ok s ∧
      s.flexShrink = some "0" ∧ s.flexBasis = some "0" ∧
        s.flexGrow = some "1") ∧
    (∃ s, cssShorthand { size := some "grow-3" } = Except.ok s ∧
      s.flexShrink = some "0" ∧ s.flexBasis = some "0" ∧
        s.flexGrow = some (toString 3)) := by
  constructor
  · refine ⟨_, rfl, ?_⟩
    exact cssShorthand_size_grow.1 { size := some "grow" } _ rfl rfl
  · refine ⟨_, rfl, ?_⟩
    exact cssShorthand_size_grow.2 3 { size := some "grow-3" } _
      (by decide) rfl rfl

/-- C6: a `size` value that is a single whitespace-free token other than
the grow forms (a length or `"auto"`) sets `flex-shrink: 0`,
`flex-basis: <token>`, `flex-grow: 0`. -/
theorem cssShorthand_size_single_token (props : CssShorthandProps)
    (z : String) (s : ResolvedStyle) (hz : props.size = some z)
    (h1 : z ≠ "grow") (h2 : jsStartsWith z "grow-" = false)
    (h3 : isTokenNoWs z = true) (hok : cssShorthand props = Except.ok s) :
    s.flexShrink = some "0" ∧ s.flexBasis = some z ∧
      s.flexGrow = some "0" := by
  have h := cssShorthand_sizeResult_fields props z s hz hok
  rw [resolveSize_single_token z h1 h2 h3] at h
  exact h

/-- Witness for C6 at the spec's example `size = "100px"`. -/
theorem cssShorthand_size_single_token_witness :
    ∃ s, cssShorthand { size := some "100px" } = Except.ok s ∧
      s.flexShrink = some "0" ∧ s.flexBasis = some "100px" ∧
        s.flexGrow = some "0" := by
  refine ⟨_, rfl, ?_⟩
  exact cssShorthand_size_single_token { size := some "100px" } "100px" _
    rfl (by decide) (by decide) (by decide) rfl

/-- C7: every `padding` value is passed through as the `padding` shorthand
with the slash (if present) replaced by a space. -/
theorem cssShorthand_padding_slash (props : CssShorthandProps)
    (p pOut : String) (s : ResolvedStyle) (hp : props.padding = some p)
    (hform : isLengthLike p = true ∧ pOut = p ∨
      ∃ a b, isLengthLike a = true ∧ isLengthLike b = true ∧
        p = a ++ "/" ++ b ∧ pOut = a ++ " " ++ b)
    (hok : cssShorthand props = Except.ok s) : s.padding = some pOut := by
  have hrepl : jsReplaceSlashWithSpace p = pOut := by
    rcases hform with ⟨hg, hout⟩ | ⟨a, b, ha, hb, hge, hout⟩
    · rw [hout]; exact jsReplaceSlash_of_lengthLike hg
    · rw [hge, hout]; exact jsReplaceSlash_pair b ha
  cases hf : props.flex with
  | none =>
    simp [cssShorthand, hf] at hok
    rw [← hok]
    simp [hp, hrepl]
  | some f =>
    cases hr : resolveFlex f with
    | error e => simp [cssShorthand, hf, hr] at hok
    | ok fr =>
      simp [cssShorthand, hf, hr] at hok
      rw [← hok]
      simp [hp, hrepl]

/-- Witness for C7 at the spec's example `padding = "10px/20px"`. -/
theorem cssShorthand_padding_slash_witness :
    ∃ s, cssShorthand { padding := some "10px/20px" } = Except.ok s ∧
      s.padding = some "10px 20px" := by
  refine ⟨_, rfl, ?_⟩
  exact cssShorthand_padding_slash { padding := some "10px/20px" }
    "10px/20px" "10px 20px" _ rfl
    (Or.inr ⟨"10px", "20px", by decide, by decide, rfl, rfl⟩) rfl

/-- C8: when `flex` is absent no flex-container property is set
(`display`, `flex-flow`, `gap`, `align-items`, `justify-content` all
remain unset), and when `size` is absent none of `flex-basis`,
`flex-grow`, `flex-shrink` is set. -/
theorem cssShorthand_absent_fields (props : CssShorthandProps)
    (s : ResolvedStyle) (hok : cssShorthand props = Except.ok s) :
    (props.flex = none → s.display = none ∧ s.flexFlow = none ∧
      s.gap = none ∧ s.alignItems = none ∧ s.justifyContent = none) ∧
    (props.size = none → s.flexShrink = none ∧ s.flexBasis = none ∧
      s.flexGrow = none) := by
  constructor
  · intro hf
    simp [cssShorthand, hf] at hok
    rw [← hok]
    exact ⟨rfl, rfl, rfl, rfl, rfl⟩
  · intro hz
    cases hf : props.flex with
    | none =>
      simp [cssShorthand, hf, hz] at hok
      rw [← hok]
      exact ⟨rfl, rfl, rfl⟩
    | some f =>
      cases hr : resolveFlex f with
      | error e => simp [cssShorthand, hf, hr] at hok
      | ok fr =>
        simp [cssShorthand, hf, hr, hz] at hok
        rw [← hok]
        exact ⟨rfl, rfl, rfl⟩

/-- Witness for C8 at the empty descriptor. -/
theorem cssShorthand_absent_fields_witness :
    ∃ s, cssShorthand {} = Except.ok s ∧ s.display = none ∧
      s.flexFlow = none ∧ s.gap = none ∧ s.alignItems = none ∧
      s.justifyContent = none ∧ s.flexShrink = none ∧ s.flexBasis = none ∧
      s.flexGrow = none := by
  refine ⟨_, rfl, ?_⟩
  have h := cssShorthand_absent_fields {} _ rfl
  have h1 := h.1 rfl
  have h2 := h.2 rfl
  exact ⟨h1.1, h1.2.1, h1.2.2.1, h1.2.2.2.1, h1.2.2.2.2, h2.1, h2.2.1,
    h2.2.2⟩

/-! ## Card shuffling (`shuffle`, src/App.tsx lines 69–76) -/

/-- Embedding of the destructuring swap
`[a[i], a[j]] = [a[j], a[i]]`.  Out-of-range indices leave the list
unchanged (they cannot occur in `shuffle`, where `j ≤ i < length`). -/
def listSwap {α : Type _} (l : List α) (i j : Nat) : List α :=
  match l[i]?, l[j]? with
  | some a, some b => (l.set i b).set j a
  | _, _ => l

/-- The Fisher–Yates loop of `shuffle`: the body runs for
`i = n, n - 1, …, 1`, swapping index `i` with index `rand i`, where
`rand i` models the draw `Math.floor(Math.random() * (i + 1))`. -/
def shuffleLoop {α : Type _} (rand : Nat → Nat) (cards : List α) :
    Nat → List α
  | 0 => cards
  | i + 1 => shuffleLoop rand (listSwap cards (i + 1) (rand (i + 1))) i

/-- Embedding of `shuffle` (src/App.tsx lines 69–76): copies the input
(`[...items]`) and runs the swap loop from `length - 1` down to `1`.  The
copy is modelled by the purely functional update; the argument list is
never changed. -/
def shuffle {α : Type _} (items : List α) (rand : Nat → Nat) : List α :=
  shuffleLoop rand items (items.length - 1)

/-- Swapping the head with the element at index `k` of the tail is a
permutation. -/
theorem cons_set_perm {α : Type _} (t : List α) :
    ∀ (k : Nat) (x b : α), t[k]? = some b →
      (b :: t.set k x).Perm (x :: t) := by
  induction t with
  | nil => intro k x b h; simp at h
  | cons c t ih =>
    intro k x b h
    cases k with
    | zero =>
      have hb : c = b := by simpa using h
      subst hb
      simpa using List.Perm.swap x c t
    | succ m =>
      have hm : t[m]? = some b := by simpa using h
      simp only [List.set_cons_succ]
      exact (List.Perm.swap c b (t.set m x)).trans
        ((List.Perm.cons c (ih m x b hm)).trans (List.Perm.swap x c t))

/-- Writing `l[j]` to index `i` and `l[i]` to index `j` permutes `l`. -/
theorem set_set_perm_of_getElem? {α : Type _} (l : List α) :
    ∀ (i j : Nat) (a b : α), l[i]? = some a → l[j]? = some b →
      ((l.set i b).set j a).Perm l := by
  induction l with
  | nil => intro i j a b h; simp at h
  | cons c t ih =>
    intro i j a b hi hj
    cases i with
    | zero =>
      have ha : c = a := by simpa using hi
      subst ha
      cases j with
      | zero =>
        have hb : c = b := by simpa using hj
        subst hb
        simp
      | succ m =>
        have hm : t[m]? = some b := by simpa using hj
        simp only [List.set_cons_zero, List.set_cons_succ]
        exact cons_set_perm t m c b hm
    | succ k =>
      have hk : t[k]? = some a := by simpa using hi
      cases j with
      | zero =>
        have hb : c = b := by simpa using hj
        subst hb
        simp only [List.set_cons_succ, List.set_cons_zero]
        exact cons_set_perm t k c a hk
      | succ m =>
        have hm : t[m]? = some b := by simpa using hj
        simp only [List.set_cons_succ]
        exact List.Perm.cons c (ih k m a b hk hm)

theorem listSwap_perm {α : Type _} (l : List α) (i j : Nat) :
    (listSwap l i j).Perm l := by
  cases h1 : l[i]? with
  | none => simp [listSwap, h1]
  | some a =>
    cases h2 : l[j]? with
    | none => simp [listSwap, h1, h2]
    | some b =>
      simpa [listSwap, h1, h2] using set_set_perm_of_getElem? l i j a b h1 h2

theorem shuffleLoop_perm {α : Type _} (rand : Nat → Nat) (n : Nat) :
    ∀ cards : List α, (shuffleLoop rand cards n).Perm cards := by
  induction n with
  | zero => intro cards; exact List.Perm.refl _
  | succ i ih =>
    intro cards
    exact (ih _).trans (listSwap_perm cards (i + 1) (rand (i + 1)))

/-- C9: for every input array and every sequence of random draws,
`shuffle` returns a new array that is a permutation of the input — the
same elements with the same multiplicities — while the input list itself
is left unchanged (the source copies `[...items]` before swapping, which
the purely functional embedding reflects). -/
theorem shuffle_perm {α : Type _} (items : List α) (rand : Nat → Nat) :
    (shuffle items rand).Perm items :=
  shuffleLoop_perm rand (items.length - 1) items

/-! ## Card ordering (`orderCardsByArray`, src/App.tsx lines 78–105) -/

/-- A card record (src/api.tsx): only `id` is inspected by the ordering
code; `createdTime` and `text` stand for the payload fields that are
carried along untouched. -/
structure CardRecord where
  id : String
  createdTime : String
  text : String
deriving DecidableEq, Repr

/-- Embedding of `idToCardMap.delete(id)` on the association-list model
of the JS `Map`; with pairwise-distinct keys removing every entry with
the key equals removing the single entry the `Map` holds. -/
def mapDelete (m : List (String × CardRecord)) (k : String) :
    List (String × CardRecord) :=
  m.filter fun p => !(p.1 == k)

/-- The second `for` loop of `orderCardsByArray` (src/App.tsx lines
90–96): for each id of `order`, if the map still has it, push the card
and delete the entry (so a duplicated id in `order` is picked only
once). -/
def pickByOrder (m : List (String × CardRecord)) :
    List String → List CardRecord
  | [] => []
  | k :: rest =>
    match m.lookup k with
    | some card => card :: pickByOrder (mapDelete m k) rest
    | none => pickByOrder m rest

/-- Embedding of `orderCardsByArray` (src/App.tsx lines 78–105).  The JS
`Map` built from `cards` is an association list; the first `for` loop
(lines 83–88) pushes the cards whose id is not in `orderIdsSet` (in their
original order) and deletes exactly those ids from the map, leaving the
entries whose id occurs in `order`; the second loop appends the cards
picked by `order`. -/
def orderCardsByArray (cards : List CardRecord) (order : List String) :
    List CardRecord :=
  let idToCardMap := cards.map fun card => (card.id, card)
  let unordered := cards.filter fun card => !(order.contains card.id)
  let remaining := idToCardMap.filter fun p => order.contains p.1
  unordered ++ pickByOrder remaining order

/-- The tail of the ordering as the specification sentence describes it:
walk `order` and pick, for each id, the first remaining card with that
id (ids matching no card are ignored); a picked card is removed, so each
card appears exactly once. -/
def specTail (cards : List CardRecord) : List String → List CardRecord
  | [] => []
  | k :: rest =>
    match cards.find? (fun card => card.id == k) with
    | some card =>
      card :: specTail (cards.filter fun card => !(card.id == k)) rest
    | none => specTail cards rest

example :
    orderCardsByArray
      [⟨"a", "t1", "alpha"⟩, ⟨"b", "t2", "beta"⟩, ⟨"c", "t3", "gamma"⟩]
      ["z", "c", "a"] =
    [⟨"b", "t2", "beta"⟩, ⟨"c", "t3", "gamma"⟩, ⟨"a", "t1", "alpha"⟩] := rfl

theorem lookup_mapIdPair (S : List CardRecord) (k : String) :
    (S.map fun card => (card.id, card)).lookup k =
      S.find? fun card => card.id == k := by
  induction S with
  | nil => rfl
  | cons c t ih =>
    by_cases h : c.id = k
    · subst h
      simp [List.lookup, List.find?]
    · have h1 : (c.id == k) = false := by simpa using h
      have h2 : (k == c.id) = false := by simpa using Ne.symm h
      simp [List.lookup, List.find?, h1, h2, ih]

theorem mapDelete_mapIdPair (S : List CardRecord) (k : String) :
    mapDelete (S.map fun card => (card.id, card)) k =
      (S.filter fun card => !(card.id == k)).map fun card =>
        (card.id, card) := by
  induction S with
  | nil => rfl
  | cons c t ih =>
    simp only [mapDelete] at ih ⊢
    simp only [List.map_cons, List.filter_cons]
    cases h : c.id == k <;> simp [h, ih]

theorem pickByOrder_eq_specTail (order : List String) :
    ∀ S : List CardRecord,
      pickByOrder (S.map fun card => (card.id, card)) order =
        specTail S order := by
  induction order with
  | nil => intro S; rfl
  | cons k rest ih =>
    intro S
    simp only [pickByOrder, specTail, lookup_mapIdPair S k]
    cases h : S.find? (fun card => card.id == k) with
    | none => simp [h, ih S]
    | some card => simp [h, mapDelete_mapIdPair, ih]

theorem filter_mapIdPair (S : List CardRecord) (order : List String) :
    ((S.map fun card => (card.id, card)).filter fun p =>
        order.contains p.1) =
      (S.filter fun card => order.contains card.id).map fun card =>
        (card.id, card) := by
  induction S with
  | nil => rfl
  | cons c t ih =>
    cases h : order.contains c.id <;> simp_all [List.filter]

theorem orderCardsByArray_eq_specTail (cards : List CardRecord)
    (order : List String) :
    orderCardsByArray cards order =
      cards.filter (fun card => !(order.contains card.id)) ++
        specTail (cards.filter fun card => order.contains card.id) order := by
  rw [orderCardsByArray]
  rw [filter_mapIdPair cards order, pickByOrder_eq_specTail]

/-- A member of a list with pairwise-distinct ids can be moved to the
front by filtering out its id. -/
theorem perm_cons_filter_of_mem (S : List CardRecord) :
    ∀ card : CardRecord, (S.map CardRecord.id).Nodup → card ∈ S →
      S.Perm (card :: S.filter fun c => !(c.id == card.id)) := by
  induction S with
  | nil => intro card _ h; simp at h
  | cons c t ih =>
    intro card hnd hm
    have hnd' := hnd
    rw [List.map_cons, List.nodup_cons] at hnd'
    rcases List.mem_cons.mp hm with h | h
    · subst h
      have hfil : (t.filter fun x => !(x.id == card.id)) = t := by
        apply List.filter_eq_self.mpr
        intro x hx
        have : x.id ≠ card.id := by
          intro hxe
          exact hnd'.1 (hxe ▸ List.mem_map_of_mem CardRecord.id hx)
        simpa using this
      simp [hfil]
    · have hcid : c.id ≠ card.id := by
        intro hce
        exact hnd'.1 (hce ▸ List.mem_map_of_mem CardRecord.id h)
      have hkeep : (!(c.id == card.id)) = true := by simpa using hcid
      have hperm := ih card hnd'.2 h
      have hstep : List.filter (fun x => !(x.id == card.id)) (c :: t) =
          c :: List.filter (fun x => !(x.id == card.id)) t := by
        simp [List.filter_cons, hkeep]
      rw [hstep]
      exact (hperm.cons c).trans (List.Perm.swap card c _)

/-- When every card's id occurs in `order` and ids are distinct, the
spec-side tail is a permutation of the cards. -/
theorem specTail_perm (order : List String) :
    ∀ S : List CardRecord, (∀ c ∈ S, c.id ∈ order) →
      (S.map CardRecord.id).Nodup → (specTail S order).Perm S := by
  induction order with
  | nil =>
    intro S hall _
    cases S with
    | nil => exact List.Perm.refl _
    | cons c t => exact absurd (hall c (List.mem_cons_self c t)) (by simp)
  | cons k rest ih =>
    intro S hall hnd
    simp only [specTail]
    cases h : S.find? (fun card => card.id == k) with
    | none =>
      have hall' : ∀ c ∈ S, c.id ∈ rest := by
        intro c hc
        have h2 : c.id ≠ k := by
          simpa using List.find?_eq_none.mp h c hc
        exact (List.mem_cons.mp (hall c hc)).resolve_left h2
      exact ih S hall' hnd
    | some card =>
      have hmem : card ∈ S := List.mem_of_find?_eq_some h
      have hid : card.id = k := by simpa using List.find?_some h
      subst hid
      have hsub : ((S.filter fun c => !(c.id == card.id)).map
          CardRecord.id).Sublist (S.map CardRecord.id) :=
        (List.filter_sublist S).map CardRecord.id
      have hnd2 := hnd.sublist hsub
      have hall' : ∀ c ∈ (S.filter fun c => !(c.id == card.id)),
          c.id ∈ rest := by
        intro c hc
        have hcS := List.mem_of_mem_filter hc
        have h2 : c.id ≠ card.id := by
          simpa using List.of_mem_filter hc
        exact (List.mem_cons.mp (hall c hcS)).resolve_left h2
      exact ((ih _ hall' hnd2).cons card).trans
        (perm_cons_filter_of_mem S card hnd hmem).symm

/-- C10: with pairwise-distinct card ids, `orderCardsByArray` returns a
permutation of `cards` in which every input card appears exactly once:
first the cards whose id does not occur in `order`, in their original
relative order, then the remaining cards in the sequence their ids appear
in `order` (ids matching no card are ignored). -/
theorem orderCardsByArray_spec (cards : List CardRecord)
    (order : List String) (hids : (cards.map CardRecord.id).Nodup) :
    orderCardsByArray cards order =
      cards.filter (fun card => !(order.contains card.id)) ++
        specTail (cards.filter fun card => order.contains card.id) order ∧
    (orderCardsByArray cards order).Perm cards := by
  have heq := orderCardsByArray_eq_specTail cards order
  refine ⟨heq, ?_⟩
  rw [heq]
  have hall : ∀ c ∈ (cards.filter fun card => order.contains card.id),
      c.id ∈ order := by
    intro c hc
    simpa using List.of_mem_filter hc
  have hsub : ((cards.filter fun card =>
      order.contains card.id).map CardRecord.id).Sublist
      (cards.map CardRecord.id) :=
    (List.filter_sublist cards).map CardRecord.id
  have hperm2 := specTail_perm order _ hall (hids.sublist hsub)
  refine (List.Perm.append_left
    (cards.filter fun card => !(order.contains card.id)) hperm2).trans ?_
  exact List.perm_append_comm.trans
    (List.filter_append_perm (fun card => order.contains card.id) cards)

/-- Witness for C10: three cards, one id absent from `order`, one id in
`order` matching no card. -/
theorem orderCardsByArray_spec_witness :
    orderCardsByArray
        [⟨"a", "t1", "alpha"⟩, ⟨"b", "t2", "beta"⟩, ⟨"c", "t3", "gamma"⟩]
        ["z", "c", "a"] =
      ([⟨"a", "t1", "alpha"⟩, ⟨"b", "t2", "beta"⟩,
          ⟨"c", "t3", "gamma"⟩].filter fun card =>
        !(["z", "c", "a"].contains card.id)) ++
        specTail ([⟨"a", "t1", "alpha"⟩, ⟨"b", "t2", "beta"⟩,
            ⟨"c", "t3", "gamma"⟩].filter fun card =>
          ["z", "c", "a"].contains card.id) ["z", "c", "a"] ∧
    (orderCardsByArray
        [⟨"a", "t1", "alpha"⟩, ⟨"b", "t2", "beta"⟩, ⟨"c", "t3", "gamma"⟩]
        ["z", "c", "a"]).Perm
      [⟨"a", "t1", "alpha"⟩, ⟨"b", "t2", "beta"⟩, ⟨"c", "t3", "gamma"⟩] :=
  orderCardsByArray_spec
    [⟨"a", "t1", "alpha"⟩, ⟨"b", "t2", "beta"⟩, ⟨"c", "t3", "gamma"⟩]
    ["z", "c", "a"] (by decide)

example : jsSplitWs "x/stretch 12px" = ["x/stretch", "12px"] := rfl

example : jsSplitWs "1 auto | 2" = ["1", "auto", "|", "2"] := rfl

example : cssShorthand { flex := some "y-wrap/center 4px/8px" } =
    Except.ok { display := some "flex", flexFlow := some "column wrap",
                gap := some "4px 8px", alignItems := some "center",
                boxSizing := some "border-box" } := rfl

example : cssShorthand { size := some "grow-3" } =
    Except.ok { flexShrink := some "0", flexBasis := some "0",
                flexGrow := some "3", boxSizing := some "border-box" } := rfl

example : (cssShorthand { flex := some "z/stretch 1px" }).isOk = false := rfl

end CardStack
